import Mathlib

/-!
# Verification of the Kiro2api request-translation engine and account pool

Shallow embedding of the Kiro API client (`convertRequest`, the tool-name
sanitizer, the content extractors, `summarizeForDebug`, `callApiStream`) and of
the account pool (`selectAccount`, `recordError`, the cooldown timer).

JavaScript values appearing at the boundary are modelled by `JSVal` (a JSON
tree); the polymorphic `content` field of a message is the tagged variant
`JsContent` (string, block array, falsy non-string, or truthy non-string
non-array).  JavaScript exceptions (the `TypeError` thrown by `for...of` over a
non-iterable, and the errors thrown by `convertRequest`) are modelled with
`Except`.  The two UUIDs generated per request, the host `JSON.parse`, and the
model-mapping table are external inputs and are passed as parameters.
-/

namespace Kiro2api

/-- A JavaScript JSON-like value (the shapes that occur in request payloads
and in the upstream envelope).  Object field lists model JS objects, whose
keys are distinct. -/
inductive JSVal where
  | str (s : String)
  | num (n : Int)
  | bool (b : Bool)
  | null
  | arr (xs : List JSVal)
  | obj (fields : List (String × JSVal))
deriving Repr

/-- JS truthiness for `JSVal` (`null`, `false`, `0`, `""` are falsy). -/
def jsTruthy : JSVal → Bool
  | .null => false
  | .bool b => b
  | .num n => n != 0
  | .str s => s ≠ ""
  | .arr _ => true
  | .obj _ => true

/-- `x || {}` on an optional JS value: absent or falsy collapses to `{}`. -/
def jsOrEmptyObj : Option JSVal → JSVal
  | none => .obj []
  | some v => if jsTruthy v then v else .obj []

/-- Characters kept by the sanitizer's first rewrite (`[a-zA-Z0-9_]`). -/
def isWordChar (c : Char) : Bool :=
  (('a' ≤ c) && (c ≤ 'z')) || (('A' ≤ c) && (c ≤ 'Z')) ||
  (('0' ≤ c) && (c ≤ '9')) || (c == '_')

/-- `.replace(st_slash_underscore_plus, '_')`: collapse each run of `_` to one `_`. -/
def collapseUnderscores : List Char → List Char
  | [] => []
  | c :: rest =>
    match collapseUnderscores rest with
    | [] => [c]
    | d :: rest' =>
      if c == '_' && d == '_' then d :: rest' else c :: d :: rest'

/-- Trim leading and trailing `_` runs. -/
def trimUnderscores (l : List Char) : List Char :=
  ((l.dropWhile (· == '_')).reverse.dropWhile (· == '_')).reverse

/-- `sanitizeToolName` (part_000 lines 26-32): replace characters outside
`[A-Za-z0-9_]` with `_`, collapse `_` runs, trim leading/trailing `_`;
empty result becomes `tool`; a leading digit gets `t_` prepended. -/
def sanitizeToolName (name : String) : String :=
  let replaced := name.toList.map (fun c => if isWordChar c then c else '_')
  let trimmed := trimUnderscores (collapseUnderscores replaced)
  let safe := if trimmed.isEmpty then "tool".toList else trimmed
  match safe with
  | [] => "tool"
  | c :: _ => if ('0' ≤ c) && (c ≤ '9') then "t_" ++ String.mk safe else String.mk safe

/-- Per-request tool-name state: the `toolNameMap` (original → assigned, in
insertion order) and the `usedNames` set (insertion order). -/
structure TNState where
  map : List (String × String)
  used : List String
deriving Repr, DecidableEq

/-- The `while (usedNames.has(candidate))` search of `getOrCreateKiroToolName`:
candidates `base`, `base_2`, `base_3`, ...; fuel `used.length + 1` suffices
because the candidates are pairwise distinct. -/
def findFreeName (base : String) (used : List String) : String → Nat → Nat → String
  | cand, _, 0 => cand
  | cand, i, fuel + 1 =>
    if used.contains cand then findFreeName base used (base ++ "_" ++ toString i) (i + 1) fuel
    else cand

/-- `getOrCreateKiroToolName` (part_000 lines 34-45). -/
def getOrCreateKiroToolName (originalName : String) (st : TNState) : String × TNState :=
  match st.map.lookup originalName with
  | some n => (n, st)
  | none =>
    let base := sanitizeToolName originalName
    let cand := findFreeName base st.used base 2 (st.used.length + 1)
    (cand, ⟨st.map ++ [(originalName, cand)], st.used ++ [cand]⟩)

/-- `name.toLowerCase()` (the tool names involved are ASCII). -/
def lowerStr (s : String) : String :=
  String.mk (s.toList.map Char.toLower)

/-- `isUnsupportedTool` (part_000 lines 341-344). -/
def isUnsupportedTool (name : String) : Bool :=
  let lower := lowerStr name
  lower == "web_search" || lower == "websearch"

/-- `normalizeJsonObject` (part_000 lines 57-74); `parse` is the host
`JSON.parse` (`none` = parse failure). -/
def normalizeJsonObject (parse : String → Option JSVal) (v : JSVal) : JSVal :=
  match v with
  | .null => .obj []
  | .str s =>
    match parse s with
    | none => .obj []
    | some w => match w with | .obj fs => .obj fs | _ => .obj []
  | .obj fs => .obj fs
  | _ => .obj []

/-- The `content` of a `tool_result` block: a string, an array of blocks
(each contributing its `.text`, absent text giving `''`), or anything else
(coerced to the empty string). -/
inductive TRContent where
  | trStr (s : String)
  | trArr (texts : List (Option String))
  | trOther
deriving Repr, DecidableEq

/-- One element of a block-array `content` value. `text`/`thinking` carry an
optional text (the field may be absent); `unknown` is a block with an
unrecognized `type` tag. -/
inductive ContentBlock where
  | text (t : Option String)
  | thinking (t : Option String)
  | toolUse (id : String) (name : String) (input : Option JSVal)
  | toolResult (toolUseId : String) (content : TRContent) (isError : Bool)
  | unknown
deriving Repr

/-- A message `content` value: a string, an array of blocks, a falsy
non-string (null/undefined/false/0), or a truthy value that is neither a
string nor an array (a plain object, nonzero number, or `true`). -/
inductive JsContent where
  | cStr (s : String)
  | cArr (blocks : List ContentBlock)
  | cNullish
  | cOther
deriving Repr

/-- Errors thrown during translation: the two explicit `throw new Error`s of
`convertRequest` and the implicit `TypeError` of iterating a non-iterable. -/
inductive KiroError where
  | unsupportedModel (model : String)
  | emptyMessages
  | typeError
deriving Repr, DecidableEq

/-- An upstream tool result (part_000 lines 380-386): the `content` array is
always the single element `[{ text = content }]`. -/
structure ToolResultOut where
  toolUseId : String
  status : String
  content : String
deriving Repr, DecidableEq

/-- An upstream assistant tool use (part_000 lines 410-414). -/
structure ToolUseOut where
  toolUseId : String
  name : String
  input : JSVal
deriving Repr

/-- `extractTextContent` (part_000 lines 349-358). -/
def extractTextContent (content : JsContent) : String :=
  match content with
  | .cStr s => s
  | .cArr bs =>
    String.intercalate "\n"
      (bs.filterMap (fun b => match b with | .text t => some (t.getD "") | _ => none))
  | .cNullish => ""
  | .cOther => ""

/-- The `tool_result` content coercion of `extractUserContent`
(part_000 lines 374-378). -/
def toolResultText : TRContent → String
  | .trStr s => s
  | .trArr ts => String.intercalate "\n" (ts.map (fun t => t.getD ""))
  | .trOther => ""

/-- The block loop of `extractUserContent` (part_000 lines 370-388),
returning the collected text parts and tool results. -/
def extractUserBlocks : List ContentBlock → List String × List ToolResultOut
  | [] => ([], [])
  | b :: rest =>
    let (ts, trs) := extractUserBlocks rest
    match b with
    | .text t => ((t.getD "") :: ts, trs)
    | .toolResult tid c isErr =>
      (ts, ⟨tid, if isErr then "error" else "success", toolResultText c⟩ :: trs)
    | _ => (ts, trs)

/-- `extractUserContent` (part_000 lines 363-391).  Falsy content returns the
empty record; a truthy non-string non-array raises a `TypeError`
(`for...of` over a non-iterable). -/
def extractUserContent (content : JsContent) : Except KiroError (String × List ToolResultOut) :=
  match content with
  | .cNullish => .ok ("", [])
  | .cStr s => .ok (s, [])
  | .cArr bs =>
    let (ts, trs) := extractUserBlocks bs
    .ok (String.intercalate "\n" ts, trs)
  | .cOther => .error .typeError

/-- The block loop of `extractAssistantContent` (part_000 lines 403-416):
accumulated thinking text, text parts, tool uses, and the threaded
tool-name state. -/
def extractAsstBlocks (parse : String → Option JSVal) :
    List ContentBlock → TNState → String × List String × List ToolUseOut × TNState
  | [], st => ("", [], [], st)
  | b :: rest, st =>
    match b with
    | .thinking t =>
      let (th, ts, us, st') := extractAsstBlocks parse rest st
      ((t.getD "") ++ th, ts, us, st')
    | .text t =>
      let (th, ts, us, st') := extractAsstBlocks parse rest st
      (th, (t.getD "") :: ts, us, st')
    | .toolUse id name input =>
      if isUnsupportedTool name then extractAsstBlocks parse rest st
      else
        let (kname, st₁) := getOrCreateKiroToolName name st
        let u : ToolUseOut := ⟨id, kname, normalizeJsonObject parse (jsOrEmptyObj input)⟩
        let (th, ts, us, st₂) := extractAsstBlocks parse rest st₁
        (th, ts, u :: us, st₂)
    | .toolResult _ _ _ => extractAsstBlocks parse rest st
    | .unknown => extractAsstBlocks parse rest st

/-- `extractAssistantContent` (part_000 lines 396-434).  `content || []`
makes falsy content behave as the empty array; a truthy non-string
non-array raises a `TypeError`. -/
def extractAssistantContent (parse : String → Option JSVal) (content : JsContent)
    (st : TNState) : Except KiroError (String × List ToolUseOut × TNState) :=
  match content with
  | .cStr s => .ok (s, [], st)
  | .cNullish => .ok ("", [], st)
  | .cOther => .error .typeError
  | .cArr bs =>
    let (th, ts, us, st') := extractAsstBlocks parse bs st
    let joined := String.intercalate "\n" ts
    let finalText :=
      if th ≠ "" then
        if ts.length > 0 then "<thinking>" ++ th ++ "</thinking>\n\n" ++ joined
        else "<thinking>" ++ th ++ "</thinking>"
      else joined
    let finalText := if finalText == "" && us.length > 0 then "OK" else finalText
    .ok (finalText, us, st')

/-! ## The request translator (`convertRequest`, part_000 lines 147-336) -/

/-- A client message: a `role` string and a polymorphic `content`. -/
structure Msg where
  role : String
  content : JsContent
deriving Repr

/-- A client tool definition (`name`, optional `description`, optional
`input_schema`). -/
structure ToolDef where
  name : String
  description : Option String
  input_schema : Option JSVal
deriving Repr

/-- The client `system` field: a string, an array of blocks (each block's
`.text`, possibly absent), absent/falsy, or a truthy non-string non-array. -/
inductive SystemField where
  | sStr (s : String)
  | sArr (texts : List (Option String))
  | sNone
  | sOther
deriving Repr

/-- The client `thinking` field: its `type` tag and optional `budget_tokens`. -/
structure ThinkingCfg where
  ttype : String
  budget_tokens : Option Nat
deriving Repr

/-- A client (Anthropic-style) request.  `tool_choice` carries the `.type`
tag of the `tool_choice` object when present. -/
structure AnthropicReq where
  model : String
  system : SystemField
  messages : List Msg
  tools : List ToolDef
  tool_choice : Option String
  thinking : Option ThinkingCfg
deriving Repr

/-- An upstream `userInputMessage` in the history (`origin` is constantly
`AI_EDITOR`); its `userInputMessageContext.toolResults` is attached in the
source only when non-empty, which the empty list encodes. -/
structure UserInputMessage where
  content : String
  modelId : String
  toolResults : List ToolResultOut
deriving Repr

/-- An upstream `assistantResponseMessage`; `toolUses` is attached only when
non-empty, which the empty list encodes. -/
structure AssistantResponseMessage where
  content : String
  toolUses : List ToolUseOut
deriving Repr

/-- One history entry of the upstream envelope. -/
inductive HistEntry where
  | userInput (m : UserInputMessage)
  | assistantResponse (m : AssistantResponseMessage)
deriving Repr

/-- An upstream tool definition (`toolSpecification`). -/
structure ToolSpecification where
  name : String
  description : String
  inputSchemaJson : JSVal
deriving Repr

/-- The envelope's `currentMessage.userInputMessage` with its optional
context (`tools`, `toolResults`), attached only when non-empty. -/
structure CurrentMessage where
  content : String
  modelId : String
  tools : List ToolSpecification
  toolResults : List ToolResultOut
deriving Repr

/-- The upstream envelope (`conversationState` plus the optional top-level
`profileArn`); `agentTaskType` is constantly `vibe`. -/
structure Envelope where
  agentContinuationId : String
  chatTriggerType : String
  currentMessage : CurrentMessage
  conversationId : String
  history : List HistEntry
  profileArn : Option String
deriving Repr

/-- `String.prototype.includes`, on character lists. -/
def listHasPrefix : List Char → List Char → Bool
  | _, [] => true
  | [], _ :: _ => false
  | a :: as, b :: bs => a == b && listHasPrefix as bs

/-- Infix search used for the `<thinking_mode>` containment checks. -/
def listHasInfix (l pat : List Char) : Bool :=
  match l with
  | [] => pat.isEmpty
  | _ :: rest => listHasPrefix l pat || listHasInfix rest pat

/-- `s.includes(pat)`. -/
def strIncludes (s pat : String) : Bool :=
  listHasInfix s.toList pat.toList

/-- The thinking-mode header (part_000 lines 177-181): built when
`thinking.type === 'enabled'`; a zero or absent budget falls back to 10000. -/
def thinkingHeaderOf : Option ThinkingCfg → Option String
  | none => none
  | some t =>
    if t.ttype == "enabled" then
      let budget := match t.budget_tokens with
        | some n => if n == 0 then 10000 else n
        | none => 10000
      some ("<thinking_mode>enabled</thinking_mode><max_thinking_length>" ++
        toString budget ++ "</max_thinking_length>")
    else none

/-- The coerced system content when `anthropicReq.system` is truthy
(part_000 lines 187-192); `none` when the field is falsy. -/
def systemContentOf : SystemField → Option String
  | .sStr s => if s == "" then none else some s
  | .sArr ts => some (String.intercalate "\n" (ts.map (fun t => t.getD "")))
  | .sOther => some ""
  | .sNone => none

/-- The filler assistant turn pushed after a system / thinking pair. -/
def followInstructions : HistEntry :=
  .assistantResponse ⟨"I will follow these instructions.", []⟩

/-- The initial history entries produced by the system prompt and thinking
header (part_000 lines 186-226). -/
def initHistory (modelId : String) (sys : SystemField) (hdr : Option String) :
    List HistEntry :=
  match systemContentOf sys with
  | some sc =>
    if sc ≠ "" then
      let finalContent :=
        match hdr with
        | some h =>
          if !(strIncludes sc "<thinking_mode>") && !(strIncludes sc "<max_thinking_length>") then
            h ++ "\n" ++ sc
          else sc
        | none => sc
      [.userInput ⟨finalContent, modelId, []⟩, followInstructions]
    else []
  | none =>
    match hdr with
    | some h => [.userInput ⟨h, modelId, []⟩, followInstructions]
    | none => []

/-- The per-message collection loop shared by `mergeUserMessages`
(part_000 lines 443-449) and the current-message construction
(lines 266-273): non-empty extracted texts in order, all tool results in
order.  A `TypeError` from `extractUserContent` propagates. -/
def collectUser : List Msg → Except KiroError (List String × List ToolResultOut)
  | [] => .ok ([], [])
  | m :: rest =>
    match extractUserContent m.content with
    | .error e => .error e
    | .ok (t, trs) =>
      match collectUser rest with
      | .error e => .error e
      | .ok (ts, trs') => .ok ((if t ≠ "" then [t] else []) ++ ts, trs ++ trs')

/-- `mergeUserMessages` (part_000 lines 439-465). -/
def mergeUserMessages (msgs : List Msg) (modelId : String) :
    Except KiroError UserInputMessage :=
  match collectUser msgs with
  | .error e => .error e
  | .ok (ts, trs) =>
    let joined := String.intercalate "\n" ts
    let content := if joined == "" then (if trs.length > 0 then "continue" else "") else joined
    .ok ⟨content, modelId, trs⟩

/-- The history walk of `convertRequest` (part_000 lines 230-257): user
messages accumulate in a buffer, an assistant message first flushes the
buffer as one merged user turn, and a trailing non-empty buffer is flushed
with a filler `OK` assistant turn. -/
def walkHistory (parse : String → Option JSVal) (modelId : String) :
    List Msg → List Msg → TNState → Except KiroError (List HistEntry × TNState)
  | [], buffer, st =>
    match buffer with
    | [] => .ok ([], st)
    | b :: bs =>
      match mergeUserMessages (b :: bs) modelId with
      | .error e => .error e
      | .ok u => .ok ([.userInput u, .assistantResponse ⟨"OK", []⟩], st)
  | m :: rest, buffer, st =>
    if m.role == "user" then
      walkHistory parse modelId rest (buffer ++ [m]) st
    else if m.role == "assistant" then
      let flushed : Except KiroError (List HistEntry) :=
        match buffer with
        | [] => .ok []
        | b :: bs =>
          match mergeUserMessages (b :: bs) modelId with
          | .error e => .error e
          | .ok u => .ok [.userInput u]
      match flushed with
      | .error e => .error e
      | .ok pre =>
        match extractAssistantContent parse m.content st with
        | .error e => .error e
        | .ok (t, uses, st₂) =>
          match walkHistory parse modelId rest [] st₂ with
          | .error e => .error e
          | .ok (tail, st₃) => .ok (pre ++ .assistantResponse ⟨t, uses⟩ :: tail, st₃)
    else
      walkHistory parse modelId rest buffer st

/-- `currentStart` (part_000 lines 165-168): the index where the longest
all-user suffix of `messages` begins. -/
def currentStartIdx (msgs : List Msg) : Nat :=
  msgs.length - (msgs.reverse.takeWhile (fun m => m.role == "user")).length

/-- The trailing user messages merged into the current message. -/
def currentUserMsgs (msgs : List Msg) : List Msg :=
  msgs.drop (currentStartIdx msgs)

/-- `endsWithAssistant` (part_000 lines 172-174). -/
def endsWithAssistant (msgs : List Msg) : Bool :=
  (currentUserMsgs msgs).isEmpty && !msgs.isEmpty &&
    (match msgs.getLast? with
     | some m => m.role == "assistant"
     | none => false)

/-- `historyEnd` (part_000 line 229). -/
def historyEndIdx (msgs : List Msg) : Nat :=
  if endsWithAssistant msgs then msgs.length else currentStartIdx msgs

/-- The current-message text and tool results (part_000 lines 260-275). -/
def currentOf (msgs : List Msg) : Except KiroError (String × List ToolResultOut) :=
  if endsWithAssistant msgs then .ok ("continue", [])
  else
    match collectUser (currentUserMsgs msgs) with
    | .error e => .error e
    | .ok (ts, trs) =>
      let joined := String.intercalate "\n" ts
      .ok (if joined == "" then "continue" else joined, trs)

/-- The tool-definition construction (part_000 lines 278-286): unsupported
tools filtered out, names assigned through the shared sanitizer state,
descriptions truncated to 10000 characters, schemas coerced to objects. -/
def buildTools (parse : String → Option JSVal) :
    List ToolDef → TNState → List ToolSpecification × TNState
  | [], st => ([], st)
  | t :: rest, st =>
    if isUnsupportedTool t.name then buildTools parse rest st
    else
      let (n, st₁) := getOrCreateKiroToolName t.name st
      let spec : ToolSpecification :=
        ⟨n, String.mk ((t.description.getD "").toList.take 10000),
         normalizeJsonObject parse (jsOrEmptyObj t.input_schema)⟩
      let (specs, st₂) := buildTools parse rest st₁
      (spec :: specs, st₂)

/-- `chatTriggerType` (part_000 lines 298-306): `AUTO` when tools are present
and `tool_choice.type` is `any` or `tool`, else `MANUAL`. -/
def chatTriggerTypeOf (req : AnthropicReq) : String :=
  if req.tools.length > 0 then
    match req.tool_choice with
    | some t => if t == "any" || t == "tool" then "AUTO" else "MANUAL"
    | none => "MANUAL"
  else "MANUAL"

/-- Everything `convertRequest` computes other than the two fresh UUIDs. -/
structure ConvertCore where
  chatTriggerType : String
  currentContent : String
  modelId : String
  currentTools : List ToolSpecification
  currentToolResults : List ToolResultOut
  history : List HistEntry
  profileArn : Option String
  toolNameMap : List (String × String)
deriving Repr

/-- The body of `convertRequest` (part_000 lines 147-336) without the UUID
generation: model mapping, empty-message rejection, initial system/thinking
pairs, history walk, current-message construction, tool definitions and
trigger type, in source order.  `mapModel` is the model-mapping collaborator
and `profileArn` the credential's optional profile ARN. -/
def convertCore (parse : String → Option JSVal) (mapModel : String → Option String)
    (profileArn : Option String) (req : AnthropicReq) : Except KiroError ConvertCore :=
  match mapModel req.model with
  | none => .error (.unsupportedModel req.model)
  | some modelId =>
    match req.messages with
    | [] => .error .emptyMessages
    | _ :: _ =>
      let hdr := thinkingHeaderOf req.thinking
      let init := initHistory modelId req.system hdr
      match walkHistory parse modelId (req.messages.take (historyEndIdx req.messages)) []
          ⟨[], []⟩ with
      | .error e => .error e
      | .ok (walked, st₁) =>
        match currentOf req.messages with
        | .error e => .error e
        | .ok (ctext, ctrs) =>
          let (specs, st₂) := buildTools parse req.tools st₁
          .ok ⟨chatTriggerTypeOf req, ctext, modelId, specs, ctrs,
               init ++ walked, profileArn, st₂.map⟩

/-- `convertRequest` (part_000 lines 147-336).  `u1` and `u2` are the two
freshly generated UUIDs (`conversationId` and `agentContinuationId`); they
are produced at lines 161-162 and used only in the assembled envelope. -/
def convertRequest (parse : String → Option JSVal) (mapModel : String → Option String)
    (profileArn : Option String) (req : AnthropicReq) (u1 u2 : String) :
    Except KiroError (Envelope × List (String × String)) :=
  match convertCore parse mapModel profileArn req with
  | .error e => .error e
  | .ok c =>
    .ok (⟨u2, c.chatTriggerType,
          ⟨c.currentContent, c.modelId, c.currentTools, c.currentToolResults⟩,
          u1, c.history, c.profileArn⟩, c.toolNameMap)

/-! ## The request-debug summary (`summarizeForDebug`, part_000 lines 76-96) -/

/-- JS property assignment `out[k] = v`: replace an existing key in place or
append a fresh one. -/
def objSet (fs : List (String × JSVal)) (k : String) (v : JSVal) :
    List (String × JSVal) :=
  if fs.any (fun p => p.1 == k) then
    fs.map (fun p => if p.1 == k then (k, v) else p)
  else fs ++ [(k, v)]

mutual

/-- `summarizeForDebug` (part_000 lines 76-96): a bounded, type-tagged
structural trace.  Depth above 6 collapses to `[MaxDepth]`; strings become
`<string len=N>` tags; numbers and booleans pass through; arrays keep a
3-element sample; objects keep their first 60 keys, each key assigned its
recursive summary onto the `{_type, keys}` record. -/
def summarizeForDebug (v : JSVal) (depth : Nat) : JSVal :=
  if depth > 6 then .str "[MaxDepth]"
  else
    match v with
    | .null => .null
    | .str s => .str ("<string len=" ++ toString s.length ++ ">")
    | .num n => .num n
    | .bool b => .bool b
    | .arr xs =>
      .obj [("_type", .str "array"), ("length", .num (Int.ofNat xs.length)),
            ("sample", .arr (summSample xs 3 (depth + 1)))]
    | .obj fs =>
      let keys := (fs.map Prod.fst).take 60
      .obj ((summFields fs 60 (depth + 1)).foldl
        (fun acc p => objSet acc p.1 p.2)
        [("_type", .str "object"), ("keys", .arr (keys.map JSVal.str))])

/-- `value.slice(0, n).map(v => summarizeForDebug(v, depth))`. -/
def summSample : List JSVal → Nat → Nat → List JSVal
  | [], _, _ => []
  | _ :: _, 0, _ => []
  | x :: xs, n + 1, depth => summarizeForDebug x depth :: summSample xs n depth

/-- The first `n` object fields, each value summarized at `depth`. -/
def summFields : List (String × JSVal) → Nat → Nat → List (String × JSVal)
  | [], _, _ => []
  | _ :: _, 0, _ => []
  | (k, v) :: fs, n + 1, depth => (k, summarizeForDebug v depth) :: summFields fs n depth

end

mutual

/-- All strings occurring in a `JSVal`: string atoms and object keys. -/
def stringsOf : JSVal → List String
  | .str s => [s]
  | .arr xs => stringsOfList xs
  | .obj fs => stringsOfFields fs
  | .num _ => []
  | .bool _ => []
  | .null => []

/-- `stringsOf` over the elements of an array. -/
def stringsOfList : List JSVal → List String
  | [] => []
  | x :: xs => stringsOf x ++ stringsOfList xs

/-- `stringsOf` over object fields: each key plus the strings of its value. -/
def stringsOfFields : List (String × JSVal) → List String
  | [] => []
  | (k, v) :: fs => k :: (stringsOf v ++ stringsOfFields fs)

end

mutual

/-- All object keys occurring anywhere in a `JSVal`. -/
def objKeysOf : JSVal → List String
  | .obj fs => objKeysOfFields fs
  | .arr xs => objKeysOfList xs
  | _ => []

/-- `objKeysOf` over array elements. -/
def objKeysOfList : List JSVal → List String
  | [] => []
  | x :: xs => objKeysOf x ++ objKeysOfList xs

/-- `objKeysOf` over object fields: the key itself plus the keys inside the
value. -/
def objKeysOfFields : List (String × JSVal) → List String
  | [] => []
  | (k, v) :: fs => k :: (objKeysOf v ++ objKeysOfFields fs)

end

mutual

/-- Size bound on a summary: every array node has at most 60 elements and
every object node at most 62 fields (the 60 summarized keys plus the
`_type` and `keys` bookkeeping fields). -/
def sizeBounded : JSVal → Bool
  | .arr xs => xs.length ≤ 60 && sizeBoundedList xs
  | .obj fs => fs.length ≤ 62 && sizeBoundedFields fs
  | _ => true

/-- `sizeBounded` over array elements. -/
def sizeBoundedList : List JSVal → Bool
  | [] => true
  | x :: xs => sizeBounded x && sizeBoundedList xs

/-- `sizeBounded` over object field values. -/
def sizeBoundedFields : List (String × JSVal) → Bool
  | [] => true
  | (_, v) :: fs => sizeBounded v && sizeBoundedFields fs

end

/-! ## The account pool (src/pool.js) -/

/-- The account status machine (spec §4.E). -/
inductive AccountStatus where
  | active
  | cooldown
  | invalid
  | disabled
deriving Repr, DecidableEq

/-- One pooled account (credentials are owned by the token collaborator and
not modelled). -/
structure PoolAccount where
  id : String
  name : String
  status : AccountStatus
  requestCount : Nat
  errorCount : Nat
  lastUsedAt : Option String
deriving Repr, DecidableEq

/-- The selection strategy (pool.js line 14 and 137-147). -/
inductive Strategy where
  | roundRobin
  | random
  | leastUsed
deriving Repr, DecidableEq

/-- The pool's mutable state: the roster (in `Map` insertion order), the
strategy, and the round-robin index. -/
structure PoolState where
  accounts : List PoolAccount
  strategy : Strategy
  roundRobinIndex : Nat
deriving Repr, DecidableEq

/-- `this.accounts.get(id)`. -/
def findAccount (p : PoolState) (id : String) : Option PoolAccount :=
  p.accounts.find? (fun a => a.id == id)

/-- Mutate the account object with the given id in place. -/
def updAccount (p : PoolState) (id : String) (f : PoolAccount → PoolAccount) :
    PoolState :=
  { p with accounts := p.accounts.map (fun a => if a.id == id then f a else a) }

/-- `recordError` (pool.js lines 162-176): missing accounts are ignored; the
error counter is bumped; a rate-limit error sets the status to `cooldown`
and schedules the one-shot cooldown timer (returned as the timer's captured
account id). -/
def recordError (p : PoolState) (id : String) (isRateLimit : Bool) :
    PoolState × Option String :=
  match findAccount p id with
  | none => (p, none)
  | some _ =>
    let p₁ := updAccount p id (fun a => { a with errorCount := a.errorCount + 1 })
    if isRateLimit then
      (updAccount p₁ id (fun a => { a with status := .cooldown }), some id)
    else (p₁, none)

/-- The body of the scheduled 5-minute timer (pool.js lines 169-173): when it
fires, the account becomes `active` only if its status is still `cooldown`. -/
def fireCooldownTimer (p : PoolState) (id : String) : PoolState :=
  updAccount p id (fun a => if a.status == .cooldown then { a with status := .active } else a)

/-- `available.reduce((a, b) => a.requestCount < b.requestCount ? a : b)`. -/
def leastUsedPick : PoolAccount → List PoolAccount → PoolAccount
  | x, [] => x
  | x, b :: bs => leastUsedPick (if x.requestCount < b.requestCount then x else b) bs

/-- Indexing into the non-empty active list; `Math.random()` and the
unbounded round-robin index are reduced modulo the length. -/
def pickIdx (x : PoolAccount) (xs : List PoolAccount) (i : Nat) : PoolAccount :=
  (x :: xs).get ⟨i % (xs.length + 1), Nat.mod_lt _ (Nat.succ_pos _)⟩

/-- `selectAccount` (pool.js lines 130-160): filter to `active` accounts,
return `null` when none; otherwise pick by the strategy (`rand` models the
`Math.random()` draw), bump the selection counters, and return the selected
account.  The asynchronous `save()` has no in-memory effect. -/
def selectAccount (p : PoolState) (rand : Nat) (now : String) :
    Option PoolAccount × PoolState :=
  match p.accounts.filter (fun a => a.status == .active) with
  | [] => (none, p)
  | x :: xs =>
    let selected :=
      match p.strategy with
      | .random => pickIdx x xs rand
      | .leastUsed => leastUsedPick x xs
      | .roundRobin => pickIdx x xs p.roundRobinIndex
    let p₁ :=
      match p.strategy with
      | .roundRobin => { p with roundRobinIndex := p.roundRobinIndex + 1 }
      | _ => p
    let bump := fun (a : PoolAccount) =>
      { a with requestCount := a.requestCount + 1, lastUsedAt := some now }
    (some (bump selected), updAccount p₁ selected.id bump)

/-! ## The dispatcher (`callApiStream`, part_000 lines 470-503) -/

/-- The externally observable steps of `callApiStream`, in program order. -/
inductive DispatchStep where
  | acquireToken
  | translate
  | buildHeaders
  | summarizeDebug
  | fetchUpstream
deriving Repr, DecidableEq

/-- The failure modes of one dispatched call. -/
inductive CallError where
  | tokenError (msg : String)
  | translationError (e : KiroError)
  | upstreamError (status : Nat)
deriving Repr, DecidableEq

/-- The control skeleton of `callApiStream` (part_000 lines 470-503): the
bearer token is awaited first (line 471), then `convertRequest` runs
(line 475), then the headers are built (line 476) and the request-debug
summary is computed (line 477), and only then the streaming POST is issued
(line 495).  The function writes no log row.  `tokenResult` is the token
collaborator's outcome, `fetchOk`/`fetchStatus` the upstream HTTP outcome.
Returns the ordered trace of completed steps and the result (the tool-name
map on success). -/
def callApiStream (tokenResult : Except String String)
    (parse : String → Option JSVal) (mapModel : String → Option String)
    (profileArn : Option String) (req : AnthropicReq) (u1 u2 : String)
    (fetchOk : Bool) (fetchStatus : Nat) :
    List DispatchStep × Except CallError (List (String × String)) :=
  match tokenResult with
  | .error e => ([.acquireToken], .error (.tokenError e))
  | .ok _ =>
    match convertRequest parse mapModel profileArn req u1 u2 with
    | .error e => ([.acquireToken, .translate], .error (.translationError e))
    | .ok (_, tmap) =>
      if fetchOk then
        ([.acquireToken, .translate, .buildHeaders, .summarizeDebug, .fetchUpstream],
         .ok tmap)
      else
        ([.acquireToken, .translate, .buildHeaders, .summarizeDebug, .fetchUpstream],
         .error (.upstreamError fetchStatus))

/-! ## Shared concrete instantiations and helper functions -/

/-- A host `JSON.parse` that always fails; no concrete scenario below feeds a
string to `normalizeJsonObject`, so the choice is immaterial. -/
def parse0 : String → Option JSVal := fun _ => none

/-- A model-mapping collaborator that maps every label to `mid`. -/
def mapModel0 : String → Option String := fun _ => some "mid"

/-- The tool-use names of a history entry (empty for user turns). -/
def asstToolNames : HistEntry → List String
  | .userInput _ => []
  | .assistantResponse m => m.toolUses.map (fun u => u.name)

/-- Decidable equality for `Except` results. -/
def exceptDecEq {e a : Type} [DecidableEq e] [DecidableEq a] :
    (x y : Except e a) → Decidable (x = y)
  | .ok v, .ok w =>
    match decEq v w with
    | isTrue h => isTrue (by rw [h])
    | isFalse h => isFalse (fun hh => h (Except.ok.inj hh))
  | .ok _, .error _ => isFalse (fun h => Except.noConfusion h)
  | .error _, .ok _ => isFalse (fun h => Except.noConfusion h)
  | .error v, .error w =>
    match decEq v w with
    | isTrue h => isTrue (by rw [h])
    | isFalse h => isFalse (fun hh => h (Except.error.inj hh))

instance {e a : Type} [DecidableEq e] [DecidableEq a] : DecidableEq (Except e a) :=
  exceptDecEq

/-- Boolean success test for `Except`. -/
def exceptOk {ε α : Type} : Except ε α → Bool
  | .ok _ => true
  | .error _ => false

/-- Envelope with the two per-request UUIDs blanked, for comparing runs. -/
def eraseUuids (e : Envelope) : Envelope :=
  { e with conversationId := "", agentContinuationId := "" }

/-- The tool-result-threading scenario of claim C2 / spec §8 scenario 4. -/
def reqToolThreading : AnthropicReq :=
  ⟨"m", .sNone,
   [⟨"user", .cArr [.text (some "run")]⟩,
    ⟨"assistant", .cArr [.text (some "calling"),
      .toolUse "T1" "web.search!" (some (.obj [("q", .str "hi")]))]⟩,
    ⟨"user", .cArr [.toolResult "T1" (.trStr "42") false]⟩],
   [], none, none⟩

/-- The collision scenario of claim C3 / spec §8 scenario 6: two tools named
`a!` and `a?`. -/
def reqCollision : AnthropicReq :=
  ⟨"m", .sNone, [⟨"user", .cStr "hi"⟩],
   [⟨"a!", none, none⟩, ⟨"a?", none, none⟩], none, none⟩

/-- A request whose only message is an assistant turn. -/
def reqLoneAssistant : AnthropicReq :=
  ⟨"m", .sNone, [⟨"assistant", .cStr "b"⟩], [], none, none⟩

/-- A request with a single user text message. -/
def reqSingleUser : AnthropicReq :=
  ⟨"m", .sNone, [⟨"user", .cStr "hi"⟩], [], none, none⟩

/-- A request with an empty message array. -/
def reqEmpty : AnthropicReq :=
  ⟨"m", .sNone, [], [], none, none⟩

/-! ## C9: determinism modulo the generated UUIDs -/

/-- C9 (confirmed): two runs of `convertRequest` on the identical input with
the same collaborators produce envelopes and tool-name maps that agree on
everything except the freshly generated `conversationId` and
`agentContinuationId`. -/
theorem convertRequest_deterministic_mod_uuids (parse : String → Option JSVal)
    (mapModel : String → Option String) (pa : Option String) (req : AnthropicReq)
    (u1 u2 u1' u2' : String) :
    (convertRequest parse mapModel pa req u1 u2).map (fun p => (eraseUuids p.1, p.2)) =
    (convertRequest parse mapModel pa req u1' u2').map (fun p => (eraseUuids p.1, p.2)) := by
  unfold convertRequest
  cases convertCore parse mapModel pa req <;> rfl

/-! ## C2: the `web.search!` tool-use in the threading scenario -/

/-- C2 counterexample: in the tool-result-threading scenario the claim says
the `tool_use` is dropped from the assistant turn; in fact the assistant
turn of the envelope keeps it under the sanitized name `web_search`, and the
name map records the assignment. -/
theorem toolUse_websearch_kept_cex :
    (convertRequest parse0 mapModel0 none reqToolThreading "c" "a").map
      (fun p => (p.1.history.map asstToolNames, p.2)) =
    .ok ([[], ["web_search"]], [("web.search!", "web_search")]) := by
  decide

/-- C2 amended: the tool name `web.search!` is sanitized to `web_search`,
which matches the unsupported-tool filter; but the filter is applied to the
original name `web.search!`, which does not match, so the tool_use is kept
in the assistant turn of the envelope under the sanitized name. -/
theorem toolUse_websearch_sanitized_kept :
    sanitizeToolName "web.search!" = "web_search" ∧
    isUnsupportedTool "web.search!" = false ∧
    isUnsupportedTool "web_search" = true ∧
    (convertRequest parse0 mapModel0 none reqToolThreading "c" "a").map
      (fun p => p.1.history.map asstToolNames) = .ok [[], ["web_search"]] := by
  refine ⟨by decide, by decide, by decide, by decide⟩

/-! ## C3: the sanitizer collision scenario -/

/-- C3 counterexample: for tools `a!` then `a?` the claim predicts the
assignments `a_` and `a__2`; the sanitizer trims trailing underscores, so
the first assignment is `a` (not `a_`) and the second `a_2`. -/
theorem sanitizer_collision_cex :
    (convertRequest parse0 mapModel0 none reqCollision "c" "a").map (fun p => p.2) =
      .ok [("a!", "a"), ("a?", "a_2")] ∧
    sanitizeToolName "a!" ≠ "a_" := by
  exact ⟨by decide, by decide⟩

/-- C3 amended: for a request with two tool definitions named `a!` then `a?`,
the sanitizer assigns `a` to the first (trailing `_` trimmed) and `a_2` to
the second, and the returned tool-name map contains entries for both
original names. -/
theorem sanitizer_collision_assignments :
    (convertRequest parse0 mapModel0 none reqCollision "c" "a").map
      (fun p => (p.1.currentMessage.tools.map (fun t => t.name), p.2)) =
    .ok (["a", "a_2"], [("a!", "a"), ("a?", "a_2")]) := by
  decide

/-! ## C4: totality of the content extractors -/

/-- C4 counterexample: on content that is a truthy non-string non-array value
(a plain object, nonzero number, or `true`), `extractUserContent` and
`extractAssistantContent` raise a `TypeError` (iterating a non-iterable)
instead of returning a result. -/
theorem extractors_raise_cex :
    extractUserContent .cOther = .error .typeError ∧
    extractAssistantContent parse0 .cOther ⟨[], []⟩ = .error .typeError ∧
    extractTextContent .cOther = "" := by
  exact ⟨rfl, rfl, rfl⟩

/-- C4 amended: `extractTextContent` is total and yields empty text on
content of unknown shape; `extractUserContent` and `extractAssistantContent`
return results without raising on string, array and falsy content, but raise
a `TypeError` on truthy content that is neither a string nor an array. -/
theorem extractors_totality (parse : String → Option JSVal) (st : TNState)
    (s : String) (bs : List ContentBlock) :
    extractTextContent (.cStr s) = s ∧
    extractTextContent .cNullish = "" ∧
    extractTextContent .cOther = "" ∧
    exceptOk (extractUserContent (.cStr s)) = true ∧
    exceptOk (extractUserContent (.cArr bs)) = true ∧
    exceptOk (extractUserContent .cNullish) = true ∧
    exceptOk (extractUserContent .cOther) = false ∧
    exceptOk (extractAssistantContent parse (.cStr s) st) = true ∧
    exceptOk (extractAssistantContent parse (.cArr bs) st) = true ∧
    exceptOk (extractAssistantContent parse .cNullish st) = true ∧
    exceptOk (extractAssistantContent parse .cOther st) = false := by
  refine ⟨rfl, rfl, rfl, rfl, ?_, rfl, rfl, rfl, ?_, rfl, rfl⟩
  · simp [extractUserContent, exceptOk]
  · simp [extractAssistantContent, exceptOk]

/-! ## C5: ordering of token acquisition and translation in `callApiStream` -/

/-- C5 counterexample: for a request with an empty message array, the
translation error `EmptyMessages` is raised, yet the trace shows the bearer
token was already acquired before translation ran — contradicting the claim
that a translation error produces no token acquisition. -/
theorem translation_after_token_cex :
    callApiStream (.ok "tok") parse0 mapModel0 none reqEmpty "c" "a" true 200 =
      ([.acquireToken, .translate], .error (.translationError .emptyMessages)) := by
  rfl

/-- C5 amended: within `callApiStream` the bearer token is obtained from the
token collaborator first; translation then runs to completion before the
headers are built, before the request-debug summary, and before the upstream
call.  A translation error therefore produces no upstream call and no log
row (the function writes none), but token acquisition has already happened:
the trace of a translation failure is exactly
`[acquireToken, translate]`. -/
theorem translation_before_dispatch (tokenResult : Except String String)
    (parse : String → Option JSVal) (mapModel : String → Option String)
    (pa : Option String) (req : AnthropicReq) (u1 u2 : String)
    (fetchOk : Bool) (fetchStatus : Nat) (e : KiroError)
    (h : (callApiStream tokenResult parse mapModel pa req u1 u2 fetchOk fetchStatus).2 =
      .error (.translationError e)) :
    (callApiStream tokenResult parse mapModel pa req u1 u2 fetchOk fetchStatus).1 =
      [.acquireToken, .translate] := by
  unfold callApiStream at h ⊢
  cases tokenResult with
  | error te => simp at h
  | ok tok =>
    cases hcv : convertRequest parse mapModel pa req u1 u2 with
    | error e' => simp [hcv]
    | ok pr =>
      simp only [hcv] at h
      cases fetchOk <;> simp at h

/-- Witness for C5: the amended theorem applied to the empty-messages request
with a successful token acquisition. -/
theorem translation_before_dispatch_witness :
    (callApiStream (.ok "tok") parse0 mapModel0 none reqEmpty "c" "a" true 200).1 =
      [.acquireToken, .translate] :=
  translation_before_dispatch (.ok "tok") parse0 mapModel0 none reqEmpty "c" "a"
    true 200 .emptyMessages rfl


/-! ## Account-pool lemmas -/

/-- The status of the account with the given id, if present. -/
def accountStatus (p : PoolState) (id : String) : Option AccountStatus :=
  (findAccount p id).map (fun a => a.status)

theorem find_map_upd (l : List PoolAccount) (id : String) (f : PoolAccount → PoolAccount)
    (hf : ∀ a, (f a).id = a.id) :
    (l.map (fun a => if a.id == id then f a else a)).find? (fun a => a.id == id) =
      (l.find? (fun a => a.id == id)).map f := by
  induction l with
  | nil => rfl
  | cons a l ih =>
    cases hb : a.id == id with
    | true =>
      have hb2 : ((f a).id == id) = true := by rw [hf a]; exact hb
      rw [List.map_cons, if_pos hb]
      simp only [List.find?, hb, hb2]
      rfl
    | false =>
      have hb' : ¬ (a.id == id) = true := by simp [hb]
      rw [List.map_cons, if_neg hb']
      simp only [List.find?, hb]
      exact ih

theorem findAccount_upd (p : PoolState) (id : String) (f : PoolAccount → PoolAccount)
    (hf : ∀ a, (f a).id = a.id) :
    findAccount (updAccount p id f) id = (findAccount p id).map f :=
  find_map_upd p.accounts id f hf

/-- The timer body preserves the account id. -/
theorem fire_preserves_id (a : PoolAccount) :
    (if a.status == .cooldown then { a with status := .active } else a).id = a.id := by
  cases hc : a.status == .cooldown <;> simp [hc]

/-- `recordError` with the rate-limit flag, on an existing account, bumps the
error counter, sets the status to `cooldown`, and schedules the timer. -/
theorem recordError_rateLimit_state (p : PoolState) (id : String) (a : PoolAccount)
    (h : findAccount p id = some a) :
    recordError p id true =
      (updAccount (updAccount p id (fun a => { a with errorCount := a.errorCount + 1 }))
        id (fun a => { a with status := .cooldown }), some id) := by
  unfold recordError
  rw [h]
  rfl

/-- Firing the cooldown timer maps the account's status to `active` exactly
when it is still `cooldown`, leaving any other status unchanged. -/
theorem fireCooldownTimer_status (q : PoolState) (id : String) :
    accountStatus (fireCooldownTimer q id) id =
      (accountStatus q id).map (fun st => if st = .cooldown then .active else st) := by
  unfold fireCooldownTimer accountStatus
  rw [findAccount_upd _ _ _ fire_preserves_id]
  cases findAccount q id with
  | none => rfl
  | some b =>
    cases b with
    | mk bid bname bst brc bec blu => cases bst <;> rfl

theorem leastUsedPick_mem (x : PoolAccount) (bs : List PoolAccount) :
    leastUsedPick x bs ∈ x :: bs := by
  induction bs generalizing x with
  | nil => simp [leastUsedPick]
  | cons b bs ih =>
    simp only [leastUsedPick]
    by_cases hc : x.requestCount < b.requestCount
    · rw [if_pos hc]
      rcases List.mem_cons.mp (ih x) with h' | h'
      · rw [h']; exact List.mem_cons_self _ _
      · exact List.mem_cons_of_mem x (List.mem_cons_of_mem b h')
    · rw [if_neg hc]
      rcases List.mem_cons.mp (ih b) with h' | h'
      · rw [h']; exact List.mem_cons_of_mem x (List.mem_cons_self _ _)
      · exact List.mem_cons_of_mem x (List.mem_cons_of_mem b h')

theorem pickIdx_mem (x : PoolAccount) (xs : List PoolAccount) (i : Nat) :
    pickIdx x xs i ∈ x :: xs :=
  List.get_mem _ _ _

/-! ## C8: `selectAccount` returns only active accounts -/

/-- C8 (confirmed): `selectAccount` never returns an account whose status is
not `active` (so in particular never an `invalid` one), under every
strategy, random draw and round-robin index, and it returns `null` exactly
when the pool has no active account. -/
theorem selectAccount_only_active (p : PoolState) (rand : Nat) (now : String) :
    ((∀ a, a ∈ p.accounts → a.status ≠ .active) → (selectAccount p rand now).1 = none) ∧
    (∀ a, (selectAccount p rand now).1 = some a → a.status = .active) := by
  constructor
  · intro hall
    have hfil : p.accounts.filter (fun a => a.status == .active) = [] := by
      rw [List.filter_eq_nil_iff]
      intro a ha
      have := hall a ha
      simp [this]
    unfold selectAccount
    rw [hfil]
  · intro a ha
    unfold selectAccount at ha
    cases hfil : p.accounts.filter (fun a => a.status == .active) with
    | nil => rw [hfil] at ha; simp at ha
    | cons x xs =>
      rw [hfil] at ha
      simp only [Option.some.injEq] at ha
      have hmem : (match p.strategy with
          | .random => pickIdx x xs rand
          | .leastUsed => leastUsedPick x xs
          | .roundRobin => pickIdx x xs p.roundRobinIndex) ∈ x :: xs := by
        cases p.strategy with
        | random => exact pickIdx_mem x xs rand
        | leastUsed => exact leastUsedPick_mem x xs
        | roundRobin => exact pickIdx_mem x xs p.roundRobinIndex
      have hmemf : (match p.strategy with
          | .random => pickIdx x xs rand
          | .leastUsed => leastUsedPick x xs
          | .roundRobin => pickIdx x xs p.roundRobinIndex) ∈
            p.accounts.filter (fun a => a.status == .active) := by
        rw [hfil]; exact hmem
      have hact := (List.mem_filter.mp hmemf).2
      have hst := of_decide_eq_true hact
      rw [← ha]
      exact hst

/-- Witness for C8: a pool whose only account is `invalid` yields no
selection. -/
theorem selectAccount_only_active_witness :
    (selectAccount ⟨[⟨"a1", "n", .invalid, 0, 0, none⟩], .roundRobin, 0⟩ 0 "t").1 = none :=
  (selectAccount_only_active ⟨[⟨"a1", "n", .invalid, 0, 0, none⟩], .roundRobin, 0⟩ 0 "t").1
    (by decide)

/-! ## C7: the rate-limit cooldown transition -/

/-- C7 (confirmed): recording a rate-limit error for an existing account sets
its status to `cooldown` immediately and schedules the one-shot timer; when
the timer later fires, in whatever pool state then holds, the account's
status becomes `active` exactly when it is still `cooldown` at that moment
and is left unchanged otherwise (a transition to e.g. `disabled` in the
meantime suppresses it). -/
theorem recordError_cooldown_transition (p : PoolState) (id : String) (a : PoolAccount)
    (h : findAccount p id = some a) :
    accountStatus (recordError p id true).1 id = some .cooldown ∧
    (recordError p id true).2 = some id ∧
    (∀ q : PoolState,
      accountStatus (fireCooldownTimer q id) id =
        (accountStatus q id).map (fun st => if st = .cooldown then .active else st)) := by
  refine ⟨?_, ?_, fun q => fireCooldownTimer_status q id⟩
  · rw [recordError_rateLimit_state p id a h]
    unfold accountStatus
    rw [findAccount_upd _ _ (fun a => { a with status := AccountStatus.cooldown })
          (fun a => rfl),
        findAccount_upd _ _ (fun a => { a with errorCount := a.errorCount + 1 })
          (fun a => rfl), h]
    rfl
  · rw [recordError_rateLimit_state p id a h]

/-- Witness for C7: the cooldown transition applied to a concrete one-account
pool. -/
theorem recordError_cooldown_transition_witness :
    accountStatus (recordError ⟨[⟨"a1", "n", .active, 3, 0, none⟩], .roundRobin, 0⟩
      "a1" true).1 "a1" = some .cooldown :=
  (recordError_cooldown_transition ⟨[⟨"a1", "n", .active, 3, 0, none⟩], .roundRobin, 0⟩
    "a1" ⟨"a1", "n", .active, 3, 0, none⟩ (by decide)).1

/-! ## C10: a rate-limit report revives disabled and invalid accounts -/

/-- C10 (confirmed): `recordError` with the rate-limit flag sets an existing
account's status to `cooldown` regardless of its prior status — including
`disabled` and `invalid` — and the scheduled transition then sets it to
`active` (the status is still `cooldown` when the timer fires, nothing
intervening); consequently, in a pool containing an invalid account alone,
rate-limiting it and letting the cooldown elapse makes `selectAccount`
return it again. -/
theorem rateLimit_revives_any_status (p : PoolState) (id : String) (a : PoolAccount)
    (h : findAccount p id = some a) (rand : Nat) (now : String) :
    accountStatus (recordError p id true).1 id = some .cooldown ∧
    accountStatus (fireCooldownTimer (recordError p id true).1 id) id = some .active ∧
    ((selectAccount (fireCooldownTimer
        (recordError ⟨[⟨"x", "n", .invalid, 0, 0, none⟩], .roundRobin, 0⟩ "x" true).1
        "x") rand now).1).map (fun s => (s.id, s.status)) = some ("x", .active) := by
  refine ⟨?_, ?_, ?_⟩
  · rw [recordError_rateLimit_state p id a h]
    unfold accountStatus
    rw [findAccount_upd _ _ (fun a => { a with status := AccountStatus.cooldown })
          (fun a => rfl),
        findAccount_upd _ _ (fun a => { a with errorCount := a.errorCount + 1 })
          (fun a => rfl), h]
    rfl
  · rw [recordError_rateLimit_state p id a h]
    rw [fireCooldownTimer_status]
    unfold accountStatus
    rw [findAccount_upd _ _ (fun a => { a with status := AccountStatus.cooldown })
          (fun a => rfl),
        findAccount_upd _ _ (fun a => { a with errorCount := a.errorCount + 1 })
          (fun a => rfl), h]
    rfl
  · rfl

/-- Witness for C10: an `invalid` account, rate-limited and then past its
cooldown, is `active` again. -/
theorem rateLimit_revives_any_status_witness :
    accountStatus (fireCooldownTimer
      (recordError ⟨[⟨"a1", "n", .invalid, 0, 0, none⟩], .roundRobin, 0⟩ "a1" true).1
      "a1") "a1" = some .active :=
  (rateLimit_revives_any_status ⟨[⟨"a1", "n", .invalid, 0, 0, none⟩], .roundRobin, 0⟩
    "a1" ⟨"a1", "n", .invalid, 0, 0, none⟩ (by decide) 0 "t").2.1


/-! ## C1: alternation of the upstream history -/

/-- History lists made of consecutive (user, assistant) pairs. -/
inductive Paired : List HistEntry → Prop where
  | nil : Paired []
  | cons (u : UserInputMessage) (a : AssistantResponseMessage) {rest : List HistEntry} :
      Paired rest → Paired (.userInput u :: .assistantResponse a :: rest)

/-- Discriminator for history entries. -/
def isUserEntry : HistEntry → Bool
  | .userInput _ => true
  | .assistantResponse _ => false

/-- Well-formedness of the walked message prefix: every assistant message has
at least one user message since the previous assistant message (the Boolean
argument tracks whether the pending user buffer is non-empty).  This is
exactly the condition under which `walkHistory` emits (user, assistant)
pairs. -/
def wfAlternation : List Msg → Bool → Bool
  | [], _ => true
  | m :: rest, pending =>
    if m.role == "user" then wfAlternation rest true
    else if m.role == "assistant" then pending && wfAlternation rest false
    else wfAlternation rest pending

theorem Paired.append {l₁ l₂ : List HistEntry} (h₁ : Paired l₁) (h₂ : Paired l₂) :
    Paired (l₁ ++ l₂) := by
  induction h₁ with
  | nil => exact h₂
  | cons u a h ih => exact .cons u a ih

theorem Paired.length_even {l : List HistEntry} (h : Paired l) : l.length % 2 = 0 := by
  induction h with
  | nil => rfl
  | cons u a h ih =>
    simp only [List.length_cons]
    omega

theorem Paired.alternation {l : List HistEntry} (h : Paired l) :
    ∀ i (hi : i < l.length), isUserEntry (l.get ⟨i, hi⟩) = decide (i % 2 = 0) := by
  induction h with
  | nil => intro i hi; simp at hi
  | cons u a h ih =>
    rename_i rest
    intro i hi
    match i with
    | 0 => rfl
    | 1 => rfl
    | i + 2 =>
      have hi' : i < rest.length := by
        simp only [List.length_cons] at hi
        omega
      have hmod : (i + 2) % 2 = i % 2 := by omega
      rw [hmod]
      exact ih i hi'

theorem walkHistory_paired (parse : String → Option JSVal) (modelId : String)
    (msgs : List Msg) :
    ∀ (buffer : List Msg) (st : TNState) (l : List HistEntry) (st' : TNState),
      wfAlternation msgs (!buffer.isEmpty) = true →
      walkHistory parse modelId msgs buffer st = .ok (l, st') → Paired l := by
  induction msgs with
  | nil =>
    intro buffer st l st' hwf hok
    cases buffer with
    | nil =>
      simp only [walkHistory, Except.ok.injEq, Prod.mk.injEq] at hok
      rw [← hok.1]
      exact .nil
    | cons b bs =>
      simp only [walkHistory] at hok
      cases hm : mergeUserMessages (b :: bs) modelId with
      | error e =>
        simp only [hm] at hok
        exact Except.noConfusion hok
      | ok u =>
        simp only [hm, Except.ok.injEq, Prod.mk.injEq] at hok
        rw [← hok.1]
        exact .cons u ⟨"OK", []⟩ .nil
  | cons m rest ih =>
    intro buffer st l st' hwf hok
    by_cases hu : (m.role == "user") = true
    · simp only [walkHistory, hu, if_true] at hok
      simp only [wfAlternation, hu, if_true] at hwf
      have hne : (buffer ++ [m]).isEmpty = false := by
        cases buffer <;> rfl
      exact ih (buffer ++ [m]) st l st' (by rw [hne]; exact hwf) hok
    · by_cases ha : (m.role == "assistant") = true
      · simp only [walkHistory, hu, ha, if_true, if_false, Bool.false_eq_true] at hok
        simp only [wfAlternation, hu, ha, if_true, if_false, Bool.false_eq_true,
          Bool.and_eq_true] at hwf
        have hpend : (!buffer.isEmpty) = true := hwf.1
        cases buffer with
        | nil => simp at hpend
        | cons b bs =>
          cases hm : mergeUserMessages (b :: bs) modelId with
          | error e =>
            simp only [hm] at hok
            exact Except.noConfusion hok
          | ok u =>
            simp only [hm] at hok
            cases he : extractAssistantContent parse m.content st with
            | error e =>
              simp only [he] at hok
              exact Except.noConfusion hok
            | ok tus =>
              obtain ⟨t, uses, st₂⟩ := tus
              simp only [he] at hok
              cases hwk : walkHistory parse modelId rest [] st₂ with
              | error e =>
                simp only [hwk] at hok
                exact Except.noConfusion hok
              | ok pr =>
                obtain ⟨tail, st₃⟩ := pr
                simp only [hwk, Except.ok.injEq, Prod.mk.injEq] at hok
                rw [← hok.1]
                exact .cons u ⟨t, uses⟩ (ih [] st₂ tail st₃ hwf.2 hwk)
      · simp only [walkHistory, hu, ha, if_false, Bool.false_eq_true] at hok
        simp only [wfAlternation, hu, ha, if_false, Bool.false_eq_true] at hwf
        exact ih buffer st l st' hwf hok

theorem initHistory_paired (modelId : String) (sys : SystemField) (hdr : Option String) :
    Paired (initHistory modelId sys hdr) := by
  unfold initHistory
  split
  · split
    · exact .cons _ _ .nil
    · exact .nil
  · split
    · exact .cons _ _ .nil
    · exact .nil

theorem convertCore_history_paired (parse : String → Option JSVal)
    (mapModel : String → Option String) (pa : Option String) (req : AnthropicReq)
    (c : ConvertCore)
    (hwf : wfAlternation (req.messages.take (historyEndIdx req.messages)) false = true)
    (hok : convertCore parse mapModel pa req = .ok c) :
    Paired c.history := by
  unfold convertCore at hok
  cases hm : mapModel req.model with
  | none =>
    simp only [hm] at hok
    exact Except.noConfusion hok
  | some modelId =>
    simp only [hm] at hok
    cases hmsg : req.messages with
    | nil =>
      simp only [hmsg] at hok
      exact Except.noConfusion hok
    | cons m ms =>
      rw [hmsg] at hwf
      simp only [hmsg] at hok
      cases hwk : walkHistory parse modelId ((m :: ms).take (historyEndIdx (m :: ms))) []
          ⟨[], []⟩ with
      | error e =>
        simp only [hwk] at hok
        exact Except.noConfusion hok
      | ok pr =>
        obtain ⟨walked, st₁⟩ := pr
        simp only [hwk] at hok
        cases hcur : currentOf (m :: ms) with
        | error e =>
          simp only [hcur] at hok
          exact Except.noConfusion hok
        | ok cur =>
          obtain ⟨ctext, ctrs⟩ := cur
          simp only [hcur, Except.ok.injEq] at hok
          rw [← hok]
          exact Paired.append
            (initHistory_paired modelId req.system (thinkingHeaderOf req.thinking))
            (walkHistory_paired parse modelId _ [] ⟨[], []⟩ walked st₁ hwf hwk)

/-- C1 counterexample: the request whose only message is an assistant turn is
accepted by `convertRequest`, yet its history has odd length (a single
`assistantResponseMessage`), refuting the claimed even length and user-first
alternation for every accepted request. -/
theorem convertRequest_history_odd_cex :
    (convertRequest parse0 mapModel0 none reqLoneAssistant "c" "a").map
      (fun p => (p.1.history.length, p.1.history.map isUserEntry)) =
    .ok (1, [false]) := by
  decide

/-- C1 amended: for every accepted client request whose messages in the
history region (the prefix walked into the history) give every assistant
message at least one user message since the previous assistant message, the
resulting history has even length and strictly alternates user/assistant
turns starting with a `userInputMessage` and (when non-empty) ending with an
`assistantResponseMessage`; the `currentMessage` is a `userInputMessage` by
construction of the envelope. -/
theorem convertRequest_history_alternation (parse : String → Option JSVal)
    (mapModel : String → Option String) (pa : Option String) (req : AnthropicReq)
    (u1 u2 : String) (env : Envelope) (tm : List (String × String))
    (hwf : wfAlternation (req.messages.take (historyEndIdx req.messages)) false = true)
    (hok : convertRequest parse mapModel pa req u1 u2 = .ok (env, tm)) :
    env.history.length % 2 = 0 ∧
    (∀ i (hi : i < env.history.length),
      isUserEntry (env.history.get ⟨i, hi⟩) = decide (i % 2 = 0)) ∧
    (∀ i (hi : i < env.history.length), i + 1 = env.history.length →
      isUserEntry (env.history.get ⟨i, hi⟩) = false) := by
  unfold convertRequest at hok
  cases hc : convertCore parse mapModel pa req with
  | error e =>
    simp only [hc] at hok
    exact Except.noConfusion hok
  | ok c =>
    simp only [hc, Except.ok.injEq, Prod.mk.injEq] at hok
    have henv : env.history = c.history := by
      rw [← hok.1]
    rw [henv]
    have hp : Paired c.history := convertCore_history_paired parse mapModel pa req c hwf hc
    refine ⟨hp.length_even, hp.alternation, ?_⟩
    intro i hi hlast
    rw [hp.alternation i hi]
    have heven := hp.length_even
    have hodd : i % 2 = 1 := by omega
    simp [hodd]

/-- Witness for C1: the amended theorem applied to the single-user-message
request, whose (empty) history trivially satisfies all three conclusions. -/
theorem convertRequest_history_alternation_witness :
    (⟨"a", "MANUAL", ⟨"hi", "mid", [], []⟩, "c", [], none⟩ : Envelope).history.length % 2 = 0 ∧
    (∀ i (hi : i < (⟨"a", "MANUAL", ⟨"hi", "mid", [], []⟩, "c", [], none⟩ :
        Envelope).history.length),
      isUserEntry ((⟨"a", "MANUAL", ⟨"hi", "mid", [], []⟩, "c", [], none⟩ :
        Envelope).history.get ⟨i, hi⟩) = decide (i % 2 = 0)) ∧
    (∀ i (hi : i < (⟨"a", "MANUAL", ⟨"hi", "mid", [], []⟩, "c", [], none⟩ :
        Envelope).history.length),
      i + 1 = (⟨"a", "MANUAL", ⟨"hi", "mid", [], []⟩, "c", [], none⟩ :
        Envelope).history.length →
      isUserEntry ((⟨"a", "MANUAL", ⟨"hi", "mid", [], []⟩, "c", [], none⟩ :
        Envelope).history.get ⟨i, hi⟩) = false) :=
  convertRequest_history_alternation parse0 mapModel0 none reqSingleUser "c" "a"
    ⟨"a", "MANUAL", ⟨"hi", "mid", [], []⟩, "c", [], none⟩ [] (by decide) (by rfl)



/-! ## C6: the request-debug summary -/

/-- The bookkeeping strings a summary may contain besides object keys. -/
def fixedSummaryStrings : List String :=
  ["[MaxDepth]", "_type", "array", "object", "length", "sample", "keys"]

/-- A `<string len=N>` replacement tag. -/
def isLenTag (s : String) : Prop :=
  ∃ n : Nat, s = "<string len=" ++ toString n ++ ">"

/-- A string the summary may legitimately contain: a fixed bookkeeping
string, a length tag, or one of the given object keys. -/
def summarySafeStr (s : String) (ks : List String) : Prop :=
  s ∈ fixedSummaryStrings ∨ isLenTag s ∨ s ∈ ks

theorem summarySafeStr_mono {s : String} {ks ks' : List String}
    (h : summarySafeStr s ks) (hsub : ∀ x ∈ ks, x ∈ ks') : summarySafeStr s ks' := by
  rcases h with h | h | h
  · exact Or.inl h
  · exact Or.inr (Or.inl h)
  · exact Or.inr (Or.inr (hsub s h))

theorem stringsOfFields_append (l1 l2 : List (String × JSVal)) :
    stringsOfFields (l1 ++ l2) = stringsOfFields l1 ++ stringsOfFields l2 := by
  induction l1 with
  | nil => rfl
  | cons p l ih =>
    obtain ⟨k, v⟩ := p
    simp [stringsOfFields, ih]

theorem mem_stringsOfFields_cons {s : String} {k : String} {v : JSVal}
    {rest : List (String × JSVal)} :
    s ∈ stringsOfFields ((k, v) :: rest) ↔
      s = k ∨ s ∈ stringsOf v ∨ s ∈ stringsOfFields rest := by
  simp [stringsOfFields]

theorem stringsOfFields_replace (acc : List (String × JSVal)) (k : String) (v : JSVal) :
    ∀ s ∈ stringsOfFields (acc.map (fun p => if p.1 == k then (k, v) else p)),
      s ∈ stringsOfFields acc ∨ s = k ∨ s ∈ stringsOf v := by
  induction acc with
  | nil => intro s hs; simp [stringsOfFields] at hs
  | cons p rest ih =>
    obtain ⟨k', v'⟩ := p
    intro s hs
    rw [List.map_cons] at hs
    by_cases hk : (k' == k) = true
    · rw [if_pos hk] at hs
      rcases mem_stringsOfFields_cons.mp hs with h | h | h
      · exact Or.inr (Or.inl h)
      · exact Or.inr (Or.inr h)
      · rcases ih s h with h' | h'
        · exact Or.inl (mem_stringsOfFields_cons.mpr (Or.inr (Or.inr h')))
        · exact Or.inr h'
    · rw [if_neg hk] at hs
      rcases mem_stringsOfFields_cons.mp hs with h | h | h
      · exact Or.inl (mem_stringsOfFields_cons.mpr (Or.inl h))
      · exact Or.inl (mem_stringsOfFields_cons.mpr (Or.inr (Or.inl h)))
      · rcases ih s h with h' | h'
        · exact Or.inl (mem_stringsOfFields_cons.mpr (Or.inr (Or.inr h')))
        · exact Or.inr h'

theorem stringsOfFields_objSet (acc : List (String × JSVal)) (k : String) (v : JSVal) :
    ∀ s ∈ stringsOfFields (objSet acc k v),
      s ∈ stringsOfFields acc ∨ s = k ∨ s ∈ stringsOf v := by
  intro s hs
  unfold objSet at hs
  by_cases hany : acc.any (fun p => p.1 == k) = true
  · rw [if_pos hany] at hs
    exact stringsOfFields_replace acc k v s hs
  · rw [if_neg hany] at hs
    rw [stringsOfFields_append] at hs
    rcases List.mem_append.mp hs with h | h
    · exact Or.inl h
    · rcases mem_stringsOfFields_cons.mp h with h' | h' | h'
      · exact Or.inr (Or.inl h')
      · exact Or.inr (Or.inr h')
      · simp [stringsOfFields] at h'

theorem stringsOfFields_foldl_objSet (ps : List (String × JSVal)) :
    ∀ (acc : List (String × JSVal)),
      ∀ s ∈ stringsOfFields (ps.foldl (fun a p => objSet a p.1 p.2) acc),
        s ∈ stringsOfFields acc ∨ s ∈ stringsOfFields ps := by
  induction ps with
  | nil => intro acc s hs; exact Or.inl hs
  | cons p ps ih =>
    obtain ⟨k, v⟩ := p
    intro acc s hs
    rw [List.foldl_cons] at hs
    rcases ih (objSet acc k v) s hs with h | h
    · rcases stringsOfFields_objSet acc k v s h with h' | h' | h'
      · exact Or.inl h'
      · exact Or.inr (mem_stringsOfFields_cons.mpr (Or.inl h'))
      · exact Or.inr (mem_stringsOfFields_cons.mpr (Or.inr (Or.inl h')))
    · exact Or.inr (mem_stringsOfFields_cons.mpr (Or.inr (Or.inr h)))

theorem stringsOfList_map_str (ks : List String) :
    stringsOfList (ks.map JSVal.str) = ks := by
  induction ks with
  | nil => rfl
  | cons k ks ih => simp [stringsOfList, stringsOf, ih]

theorem mem_objKeysOfFields_of_mem_fst {s : String} (fs : List (String × JSVal)) :
    s ∈ fs.map Prod.fst → s ∈ objKeysOfFields fs := by
  induction fs with
  | nil => intro h; simp at h
  | cons p rest ih =>
    obtain ⟨k, v⟩ := p
    intro h
    rcases List.mem_cons.mp h with h' | h'
    · simp [objKeysOfFields, h']
    · simp only [objKeysOfFields, List.mem_cons, List.mem_append]
      right
      right
      exact ih h'

mutual

theorem summ_strings_safe (v : JSVal) (d : Nat) :
    ∀ s ∈ stringsOf (summarizeForDebug v d), summarySafeStr s (objKeysOf v) := by
  intro s hs
  by_cases hd : d > 6
  · unfold summarizeForDebug at hs
    rw [if_pos hd] at hs
    simp only [stringsOf, List.mem_singleton] at hs
    exact Or.inl (by simp [fixedSummaryStrings, hs])
  · unfold summarizeForDebug at hs
    rw [if_neg hd] at hs
    cases v with
    | null => simp [stringsOf] at hs
    | num n => simp [stringsOf] at hs
    | bool b => simp [stringsOf] at hs
    | str s' =>
      simp only [stringsOf, List.mem_singleton] at hs
      exact Or.inr (Or.inl ⟨s'.length, hs⟩)
    | arr xs =>
      simp only [stringsOf] at hs
      rcases mem_stringsOfFields_cons.mp hs with h | h | h
      · exact Or.inl (by simp [fixedSummaryStrings, h])
      · simp only [stringsOf, List.mem_singleton] at h
        exact Or.inl (by simp [fixedSummaryStrings, h])
      · rcases mem_stringsOfFields_cons.mp h with h2 | h2 | h2
        · exact Or.inl (by simp [fixedSummaryStrings, h2])
        · simp [stringsOf] at h2
        · rcases mem_stringsOfFields_cons.mp h2 with h3 | h3 | h3
          · exact Or.inl (by simp [fixedSummaryStrings, h3])
          · simp only [stringsOf] at h3
            have hsafe := summSample_strings_safe xs 3 (d + 1) s h3
            exact summarySafeStr_mono hsafe (fun x hx => by simpa [objKeysOf] using hx)
          · simp [stringsOfFields] at h3
    | obj fs =>
      simp only [stringsOf] at hs
      rcases stringsOfFields_foldl_objSet (summFields fs 60 (d + 1)) _ s hs with h | h
      · rcases mem_stringsOfFields_cons.mp h with h1 | h1 | h1
        · exact Or.inl (by simp [fixedSummaryStrings, h1])
        · simp only [stringsOf, List.mem_singleton] at h1
          exact Or.inl (by simp [fixedSummaryStrings, h1])
        · rcases mem_stringsOfFields_cons.mp h1 with h2 | h2 | h2
          · exact Or.inl (by simp [fixedSummaryStrings, h2])
          · simp only [stringsOf, stringsOfList_map_str] at h2
            refine Or.inr (Or.inr ?_)
            simp only [objKeysOf]
            exact mem_objKeysOfFields_of_mem_fst fs (List.mem_of_mem_take h2)
          · simp [stringsOfFields] at h2
      · have hsafe := summFields_strings_safe fs 60 (d + 1) s h
        exact summarySafeStr_mono hsafe (fun x hx => by simpa [objKeysOf] using hx)

theorem summSample_strings_safe (xs : List JSVal) (n d : Nat) :
    ∀ s ∈ stringsOfList (summSample xs n d), summarySafeStr s (objKeysOfList xs) := by
  intro s hs
  match xs, n with
  | [], _ => simp [summSample, stringsOfList] at hs
  | _ :: _, 0 => simp [summSample, stringsOfList] at hs
  | x :: xs', n' + 1 =>
    simp only [summSample, stringsOfList] at hs
    rcases List.mem_append.mp hs with h | h
    · have hsafe := summ_strings_safe x d s h
      exact summarySafeStr_mono hsafe
        (fun y hy => by simp only [objKeysOfList, List.mem_append]; exact Or.inl hy)
    · have hsafe := summSample_strings_safe xs' n' d s h
      exact summarySafeStr_mono hsafe
        (fun y hy => by simp only [objKeysOfList, List.mem_append]; exact Or.inr hy)

theorem summFields_strings_safe (fs : List (String × JSVal)) (n d : Nat) :
    ∀ s ∈ stringsOfFields (summFields fs n d), summarySafeStr s (objKeysOfFields fs) := by
  intro s hs
  match fs, n with
  | [], _ => simp [summFields, stringsOfFields] at hs
  | _ :: _, 0 => simp [summFields, stringsOfFields] at hs
  | (k, v) :: fs', n' + 1 =>
    simp only [summFields] at hs
    rcases mem_stringsOfFields_cons.mp hs with h | h | h
    · refine Or.inr (Or.inr ?_)
      simp [objKeysOfFields, h]
    · have hsafe := summ_strings_safe v d s h
      exact summarySafeStr_mono hsafe
        (fun y hy => by
          simp only [objKeysOfFields, List.mem_cons, List.mem_append]
          right
          exact Or.inl hy)
    · have hsafe := summFields_strings_safe fs' n' d s h
      exact summarySafeStr_mono hsafe
        (fun y hy => by
          simp only [objKeysOfFields, List.mem_cons, List.mem_append]
          right
          exact Or.inr hy)

end


theorem summSample_length (xs : List JSVal) (n d : Nat) :
    (summSample xs n d).length ≤ n := by
  match xs, n with
  | [], _ => simp [summSample]
  | _ :: _, 0 => simp [summSample]
  | x :: xs', n' + 1 =>
    simp only [summSample, List.length_cons]
    exact Nat.succ_le_succ (summSample_length xs' n' d)

theorem summFields_length (fs : List (String × JSVal)) (n d : Nat) :
    (summFields fs n d).length ≤ n := by
  match fs, n with
  | [], _ => simp [summFields]
  | _ :: _, 0 => simp [summFields]
  | (k, v) :: fs', n' + 1 =>
    simp only [summFields, List.length_cons]
    exact Nat.succ_le_succ (summFields_length fs' n' d)

theorem objSet_length (acc : List (String × JSVal)) (k : String) (v : JSVal) :
    (objSet acc k v).length ≤ acc.length + 1 := by
  unfold objSet
  by_cases h : acc.any (fun p => p.1 == k) = true
  · rw [if_pos h]
    simp
  · rw [if_neg h]
    simp

theorem foldl_objSet_length (ps : List (String × JSVal)) :
    ∀ acc : List (String × JSVal),
      (ps.foldl (fun a p => objSet a p.1 p.2) acc).length ≤ acc.length + ps.length := by
  induction ps with
  | nil => intro acc; simp
  | cons p ps ih =>
    obtain ⟨k, v⟩ := p
    intro acc
    rw [List.foldl_cons]
    have h1 := ih (objSet acc k v)
    have h2 := objSet_length acc k v
    simp only [List.length_cons]
    omega

theorem sizeBoundedFields_append (l1 l2 : List (String × JSVal)) :
    sizeBoundedFields (l1 ++ l2) = (sizeBoundedFields l1 && sizeBoundedFields l2) := by
  induction l1 with
  | nil => rfl
  | cons p l ih =>
    obtain ⟨k, v⟩ := p
    simp [sizeBoundedFields, ih, Bool.and_assoc]

theorem sizeBoundedFields_replace (acc : List (String × JSVal)) (k : String) (v : JSVal)
    (hacc : sizeBoundedFields acc = true) (hv : sizeBounded v = true) :
    sizeBoundedFields (acc.map (fun p => if p.1 == k then (k, v) else p)) = true := by
  induction acc with
  | nil => rfl
  | cons p rest ih =>
    obtain ⟨k', v'⟩ := p
    simp only [sizeBoundedFields, Bool.and_eq_true] at hacc
    rw [List.map_cons]
    by_cases hk : (k' == k) = true
    · rw [if_pos hk]
      simp only [sizeBoundedFields, Bool.and_eq_true]
      exact ⟨hv, ih hacc.2⟩
    · rw [if_neg hk]
      simp only [sizeBoundedFields, Bool.and_eq_true]
      exact ⟨hacc.1, ih hacc.2⟩

theorem sizeBoundedFields_objSet (acc : List (String × JSVal)) (k : String) (v : JSVal)
    (hacc : sizeBoundedFields acc = true) (hv : sizeBounded v = true) :
    sizeBoundedFields (objSet acc k v) = true := by
  unfold objSet
  by_cases h : acc.any (fun p => p.1 == k) = true
  · rw [if_pos h]
    exact sizeBoundedFields_replace acc k v hacc hv
  · rw [if_neg h]
    rw [sizeBoundedFields_append]
    simp only [Bool.and_eq_true]
    refine ⟨hacc, ?_⟩
    simp [sizeBoundedFields, hv]

theorem sizeBoundedFields_foldl (ps : List (String × JSVal)) :
    ∀ acc : List (String × JSVal), sizeBoundedFields acc = true →
      sizeBoundedFields ps = true →
      sizeBoundedFields (ps.foldl (fun a p => objSet a p.1 p.2) acc) = true := by
  induction ps with
  | nil => intro acc hacc _; exact hacc
  | cons p ps ih =>
    obtain ⟨k, v⟩ := p
    intro acc hacc hps
    simp only [sizeBoundedFields, Bool.and_eq_true] at hps
    rw [List.foldl_cons]
    exact ih (objSet acc k v) (sizeBoundedFields_objSet acc k v hacc hps.1) hps.2

theorem sizeBoundedList_map_str (ks : List String) :
    sizeBoundedList (ks.map JSVal.str) = true := by
  induction ks with
  | nil => rfl
  | cons k ks ih => simp [sizeBoundedList, sizeBounded, ih]

mutual

theorem summ_sizeBounded (v : JSVal) (d : Nat) :
    sizeBounded (summarizeForDebug v d) = true := by
  by_cases hd : d > 6
  · unfold summarizeForDebug
    rw [if_pos hd]
    rfl
  · unfold summarizeForDebug
    rw [if_neg hd]
    cases v with
    | null => rfl
    | str s' => rfl
    | num n => rfl
    | bool b => rfl
    | arr xs =>
      have h1 := summSample_length xs 3 (d + 1)
      have h2 := summSample_sizeBounded xs 3 (d + 1)
      simp only [sizeBounded, sizeBoundedFields, sizeBoundedList, Bool.and_eq_true,
        decide_eq_true_eq, List.length_cons, List.length_nil]
      exact ⟨by omega, trivial, trivial, ⟨by omega, h2⟩, trivial⟩
    | obj fs =>
      simp only [sizeBounded, Bool.and_eq_true, decide_eq_true_eq]
      constructor
      · have h1 := foldl_objSet_length (summFields fs 60 (d + 1))
          [("_type", JSVal.str "object"),
           ("keys", JSVal.arr (((fs.map Prod.fst).take 60).map JSVal.str))]
        have h2 := summFields_length fs 60 (d + 1)
        simp only [List.length_cons, List.length_nil] at h1
        omega
      · refine sizeBoundedFields_foldl (summFields fs 60 (d + 1)) _ ?_
          (summFields_sizeBounded fs 60 (d + 1))
        simp only [sizeBoundedFields, sizeBounded, Bool.and_eq_true, decide_eq_true_eq]
        refine ⟨trivial, ⟨?_, sizeBoundedList_map_str _⟩, trivial⟩
        have := List.length_take_le 60 (fs.map Prod.fst)
        simp only [List.length_map]
        omega

theorem summSample_sizeBounded (xs : List JSVal) (n d : Nat) :
    sizeBoundedList (summSample xs n d) = true := by
  match xs, n with
  | [], _ => rfl
  | _ :: _, 0 => rfl
  | x :: xs', n' + 1 =>
    simp only [summSample, sizeBoundedList, Bool.and_eq_true]
    exact ⟨summ_sizeBounded x d, summSample_sizeBounded xs' n' d⟩

theorem summFields_sizeBounded (fs : List (String × JSVal)) (n d : Nat) :
    sizeBoundedFields (summFields fs n d) = true := by
  match fs, n with
  | [], _ => rfl
  | _ :: _, 0 => rfl
  | (k, v) :: fs', n' + 1 =>
    simp only [summFields, sizeBoundedFields, Bool.and_eq_true]
    exact ⟨summ_sizeBounded v d, summFields_sizeBounded fs' n' d⟩

end


/-- C6 counterexample: summarizing the object `{secret: 1}` produces a summary
whose strings include `secret` — an object key taken verbatim from the
summarized value — so the summary is not free of text taken from the value. -/
theorem summary_contains_key_cex :
    stringsOf (summarizeForDebug (.obj [("secret", .num 1)]) 0) =
      ["_type", "object", "keys", "secret", "secret"] := by
  rfl

/-- C6 amended: the request-debug summary replaces each string value with a
`<string len=N>` tag, passes numbers and booleans through, keeps at most 3
sample elements per array and the first 60 keys per object (every array node
of a summary has at most 60 elements and every object node at most 62
fields, counting the two bookkeeping fields), and caps recursion at depth 6
with `[MaxDepth]`.  String values from the summarized value never appear in
the summary: every string in it is a fixed bookkeeping string, a length tag,
or an object KEY of the summarized value — object keys do leak into the
summary verbatim. -/
theorem summary_structure_safe (v : JSVal) (d : Nat) (s : String)
    (hs : s ∈ stringsOf (summarizeForDebug v d)) :
    summarySafeStr s (objKeysOf v) ∧
    sizeBounded (summarizeForDebug v d) = true ∧
    (∀ d', 6 < d' → summarizeForDebug v d' = .str "[MaxDepth]") ∧
    (∀ s' : String, ∀ d', d' ≤ 6 →
      summarizeForDebug (.str s') d' =
        .str ("<string len=" ++ toString s'.length ++ ">")) ∧
    (∀ n : Int, ∀ d', d' ≤ 6 → summarizeForDebug (.num n) d' = .num n) ∧
    (∀ b : Bool, ∀ d', d' ≤ 6 → summarizeForDebug (.bool b) d' = .bool b) := by
  refine ⟨summ_strings_safe v d s hs, summ_sizeBounded v d, ?_, ?_, ?_, ?_⟩
  · intro d' hd'
    unfold summarizeForDebug
    rw [if_pos hd']
  · intro s' d' hd'
    unfold summarizeForDebug
    rw [if_neg (by omega)]
  · intro n d' hd'
    unfold summarizeForDebug
    rw [if_neg (by omega)]
  · intro b d' hd'
    unfold summarizeForDebug
    rw [if_neg (by omega)]

/-- Witness for C6: the amended theorem applied to `{k: "x"}` at depth 0 and
the summary string `_type`. -/
theorem summary_structure_safe_witness :
    summarySafeStr "_type" (objKeysOf (.obj [("k", .str "x")])) ∧
    sizeBounded (summarizeForDebug (.obj [("k", .str "x")]) 0) = true ∧
    (∀ d', 6 < d' → summarizeForDebug (.obj [("k", .str "x")]) d' = .str "[MaxDepth]") ∧
    (∀ s' : String, ∀ d', d' ≤ 6 →
      summarizeForDebug (.str s') d' =
        .str ("<string len=" ++ toString s'.length ++ ">")) ∧
    (∀ n : Int, ∀ d', d' ≤ 6 → summarizeForDebug (.num n) d' = .num n) ∧
    (∀ b : Bool, ∀ d', d' ≤ 6 → summarizeForDebug (.bool b) d' = .bool b) :=
  summary_structure_safe (.obj [("k", .str "x")]) 0 "_type" (by decide)

end Kiro2api
